import Mathlib

set_option maxRecDepth 8000

/-!
Shallow embedding of the core of `src/EVR_Texture_Editor.py`
(the EVR texture tools: container-header parsing, the dimension/block-size
resolver, the resolved-parameter cache and the replacement engine).

File bytes are modelled as `List Nat` (each entry one byte), the external
`astcenc` codec invocations as abstract outcome records passed in as
parameters (the repository treats the codec as a black box), and the global
`DECODE_CACHE` dict as a function `String → Option DecodeRecord` threaded
through the functions that read or write it.
-/

/-- `struct.pack("<I", x)`: the 4-byte little-endian encoding of `x`
(defined for `x < 2^32`; the callers below check that bound where the
Python `struct.pack` call would raise `struct.error`). -/
def packLE32 (x : Nat) : List Nat :=
  [x % 256, x / 256 % 256, x / 65536 % 256, x / 16777216 % 256]

/-- `struct.unpack("<I", bs)` on an exactly-4-byte slice. -/
def unpackLE32 (bs : List Nat) : Nat :=
  match bs with
  | [b0, b1, b2, b3] => b0 + 256 * b1 + 65536 * b2 + 16777216 * b3
  | _ => 0

/-- Specification-side reader: the little-endian 32-bit value formed by the
four bytes of `l` at offsets `off .. off + 3` (missing bytes read as 0). -/
def le_value_at (l : List Nat) (off : Nat) : Nat :=
  l.getD off 0 + 256 * l.getD (off + 1) 0
    + 65536 * l.getD (off + 2) 0 + 16777216 * l.getD (off + 3) 0

/-- `ASTCTools.calculate_astc_size`: `blocks_x * blocks_y * 16` with the
Python `(width + block_w - 1) // block_w` ceiling-division idiom. -/
def calculate_astc_size (width height block_w block_h : Nat) : Nat :=
  ((width + block_w - 1) / block_w) * ((height + block_h - 1) / block_h) * 16

/-- `ASTCTools.pad_to_size`: pad with trailing zero bytes or truncate so the
result has exactly `target_size` bytes. -/
def pad_to_size (data : List Nat) (target_size : Nat) : List Nat :=
  if data.length < target_size then
    data ++ List.replicate (target_size - data.length) 0
  else if data.length > target_size then
    data.take target_size
  else
    data

/-- `struct.pack("<I", x)[:3]` from `wrap_raw_astc.dim3`: a 3-byte
little-endian dimension triple. -/
def dim3 (x : Nat) : List Nat :=
  (packLE32 x).take 3

/-- `ASTCTools.wrap_raw_astc`: prefix the raw blob with the synthetic 16-byte
ASTC header (little-endian magic `0x5CA1AB13`, the `3B` block-dimension
triple `(block_width, block_height, 1)`, then 3-byte little-endian triples
for width, height and depth 1).  `struct.pack` raises (and the function
returns failure) when a `3B` value exceeds 255 or a `<I` value exceeds
`2^32 - 1`; `none` models that failure path. -/
def wrap_raw_astc (data : List Nat) (width height block_width block_height : Nat) :
    Option (List Nat) :=
  if block_width ≤ 255 ∧ block_height ≤ 255 ∧ width < 4294967296 ∧ height < 4294967296 then
    some (packLE32 0x5CA1AB13 ++ [block_width, block_height, 1]
      ++ dim3 width ++ dim3 height ++ dim3 1 ++ data)
  else
    none

/-- The header-stripping step of `ASTCTools.encode_texture` (lines 1139-1142):
drop the codec's own 16-byte header when the blob is longer than 16 bytes and
starts with the little-endian ASTC magic `b'\x13\xAB\xA1\x5C'`. -/
def strip_astc_header (astc_data : List Nat) : List Nat :=
  if astc_data.length > 16 ∧ astc_data.take 4 = [19, 171, 161, 92] then
    astc_data.drop 16
  else
    astc_data

/-- The dictionary returned by `DDSHandler.get_dds_info`. -/
structure DDSInfo where
  width : Nat
  height : Nat
  mipmaps : Nat
  format : String
  file_size : Nat
  format_code : Option Nat
  is_problematic : Bool
deriving Repr, DecidableEq

/-- `DDSHandler.DXGI_FORMAT`: the fixed numeric-code → name table. -/
def DXGI_FORMAT : List (Nat × String) :=
  [(0, "DXGI_FORMAT_UNKNOWN"), (26, "DXGI_FORMAT_R11G11B10_FLOAT"),
   (61, "DXGI_FORMAT_R8_UNORM"),
   (71, "DXGI_FORMAT_BC1_UNORM"), (77, "DXGI_FORMAT_BC3_UNORM"),
   (80, "DXGI_FORMAT_BC4_UNORM"), (83, "DXGI_FORMAT_BC5_UNORM"),
   (91, "DXGI_FORMAT_B8G8R8A8_UNORM_SRGB"),
   (87, "DXGI_FORMAT_B8G8R8A8_TYPELESS")]

/-- `DDSHandler.DXGI_FORMAT.get(format_code, f"DXGI Format {format_code}")`. -/
def dxgi_format_name (format_code : Nat) : String :=
  match DXGI_FORMAT.find? (fun p => p.1 == format_code) with
  | some p => p.2
  | none => s!"DXGI Format {format_code}"

/-- `DDSHandler.get_dds_info` on the file's bytes: `None` when the first 4
bytes differ from `b'DDS '` or fewer than 124 header bytes follow; otherwise
the decoded info dictionary.  Field reads follow the source: `struct.unpack`
of `header[8:12]`, `header[12:16]`, `header[24:28]`, `header[76:80]`, the
fourCC at `header[80:84]`, and for `b'DX10'` a further 20-byte extended
header whose first 4 bytes hold the DXGI format code. -/
def get_dds_info (buf : List Nat) : Option DDSInfo :=
  if buf.take 4 ≠ [68, 68, 83, 32] then none
  else if ((buf.drop 4).take 124).length < 124 then none
  else
    let header := (buf.drop 4).take 124
    let height := unpackLE32 ((header.drop 8).take 4)
    let width := unpackLE32 ((header.drop 12).take 4)
    let mipmap_count := unpackLE32 ((header.drop 24).take 4)
    let pixel_format_flags := unpackLE32 ((header.drop 76).take 4)
    let four_cc := (header.drop 80).take 4
    let base : DDSInfo :=
      ⟨width, height, mipmap_count, "Unknown", buf.length, none, false⟩
    if four_cc = [68, 88, 84, 49] then some { base with format := "BC1/DXT1" }
    else if four_cc = [68, 88, 84, 51] then some { base with format := "BC2/DXT3" }
    else if four_cc = [68, 88, 84, 53] then some { base with format := "BC3/DXT5" }
    else if four_cc = [68, 88, 49, 48] then
      let extended_header := (buf.drop 128).take 20
      if 20 ≤ extended_header.length then
        let format_code := unpackLE32 (extended_header.take 4)
        some { base with
                format := dxgi_format_name format_code,
                format_code := some format_code,
                is_problematic := ([26, 72, 78, 87] : List Nat).contains format_code }
      else some base
    else if Nat.land pixel_format_flags 64 ≠ 0 then some { base with format := "RGB" }
    else some base

/-- `TextureReplacer.hex_edit_file_size` on the descriptor file's bytes:
returns the success flag and the file's resulting content.  A blob under 248
bytes is refused untouched; `struct.pack("<I", new_size)` raises (caught,
returning failure with the file untouched) when `new_size ≥ 2^32`; otherwise
bytes 244..247 are replaced by the little-endian size and the whole buffer is
written back. -/
def hex_edit_file_size (data : List Nat) (new_size : Nat) : Bool × List Nat :=
  if 248 ≤ data.length then
    if new_size < 4294967296 then
      (true, data.take 244 ++ packLE32 new_size ++ data.drop 248)
    else (false, data)
  else (false, data)

/-- One entry of the global `DECODE_CACHE` dict (the resolved-parameter
cache). -/
structure DecodeRecord where
  width : Nat
  height : Nat
  block_w : Nat
  block_h : Nat
  original_size : Nat
deriving Repr, DecidableEq

/-- The `DECODE_CACHE` dict, as a lookup function. -/
abbrev CacheMap : Type := String → Option DecodeRecord

/-- An empty `DECODE_CACHE`. -/
def empty_cache : CacheMap := fun _ => none

/-- `DECODE_CACHE[key] = rec`. -/
def cache_store (cache : CacheMap) (key : String) (rec : DecodeRecord) : CacheMap :=
  fun k => if k = key then some rec else cache k

/-- The observable outcome of one external `astcenc -dl` invocation through
`run_hidden_command`: its exit code (`run_hidden_command` converts a timeout
or spawn failure into a `CompletedProcess` with `returncode = -1`, so those
soft failures appear here as a nonzero code), whether the output file exists
after the run, and that file's size in bytes. -/
structure CodecResult where
  returncode : Int
  outputExists : Bool
  outputSize : Nat
deriving Repr, DecidableEq

/-- `ASTCTools.decode_with_config`: wrap the raw blob, invoke the decoder and
validate the output.  Returns (accepted, output file retained, cache).
If wrapping fails the function returns `False` without touching the output
file; otherwise the candidate is accepted only when the exit code is 0, the
output file exists and its size exceeds 1000 bytes, in which case (for a
truthy `cache_key`) the resolved parameters plus the raw blob's byte length
are stored in the cache under `cache_key`; in every other case the output
file is deleted if present and the candidate is rejected. -/
def decode_with_config (run : CodecResult) (raw : List Nat)
    (width height block_w block_h : Nat) (cache_key : Option String)
    (output_preexists : Bool) (cache : CacheMap) : Bool × Bool × CacheMap :=
  match wrap_raw_astc raw width height block_w block_h with
  | none => (false, output_preexists, cache)
  | some _ =>
    if run.returncode = 0 ∧ run.outputExists = true then
      if 1000 < run.outputSize then
        match cache_key with
        | some key =>
          if key.length ≠ 0 then
            (true, true, cache_store cache key ⟨width, height, block_w, block_h, raw.length⟩)
          else (true, true, cache)
        | none => (true, true, cache)
      else (false, false, cache)
    else (false, false, cache)

/-- One entry of the persisted name → {width, height} mapping. -/
structure TextureInfo where
  width : Nat
  height : Nat
deriving Repr, DecidableEq

/-- The texture mapping, as the JSON object's key/value pairs. -/
abbrev Mapping : Type := List (String × TextureInfo)

/-- Python `texture_name in mapping` / `mapping[texture_name]`. -/
def mapping_get (mapping : Mapping) (key : String) : Option TextureInfo :=
  (mapping.find? (fun p => p.1 == key)).map (fun p => p.2)

/-- The fixed ordered channel-role suffix list of
`ASTCTools.find_texture_info`. -/
def name_suffixes : List String :=
  ["_d", "_n", "_s", "_e", "_a", "_r", "_m", "_h"]

/-- Python `texture_name.endswith(suffix)`, on the character lists. -/
def ends_with (s sfx : String) : Bool :=
  sfx.data.isSuffixOf s.data

/-- Python `texture_name[:-n]` (for `n ≥ 1`): all but the last `n`
characters. -/
def drop_right (s : String) (n : Nat) : String :=
  ⟨s.data.take (s.data.length - n)⟩

/-- The suffix loop of `ASTCTools.find_texture_info`: for each suffix in
order, if the name ends with it and the stripped base name has a mapping
entry, return that entry; otherwise keep going. -/
def suffix_lookup (texture_name : String) (mapping : Mapping) :
    List String → Option TextureInfo
  | [] => none
  | sfx :: rest =>
    if ends_with texture_name sfx then
      match mapping_get mapping (drop_right texture_name sfx.length) with
      | some info => some info
      | none => suffix_lookup texture_name mapping rest
    else suffix_lookup texture_name mapping rest

/-- `ASTCTools.find_texture_info`: direct mapping entry first, then the
suffix-stripped base names. -/
def find_texture_info (texture_name : String) (mapping : Mapping) :
    Option TextureInfo :=
  match mapping_get mapping texture_name with
  | some info => some info
  | none => suffix_lookup texture_name mapping name_suffixes

/-- `ASTCTools.get_common_block_sizes`: the fixed priority-ordered table of
13 candidate block sizes. -/
def get_common_block_sizes : List (Nat × Nat) :=
  [(4, 4), (8, 8), (6, 6), (5, 5), (10, 10), (12, 12), (5, 4), (6, 5),
   (8, 5), (8, 6), (10, 5), (10, 6), (10, 8)]

/-- The `for block_w, block_h in get_common_block_sizes()` loop of
`ASTCTools.decode_with_mapping`: try candidates in order with the mapping's
width/height, first acceptance wins.  The same output path is reused across
iterations, so the output-file existence flag is threaded from one attempt to
the next; `oracle` gives each candidate invocation's observable outcome. -/
def try_block_sizes (oracle : Nat × Nat → CodecResult) (raw : List Nat)
    (pcvr_width pcvr_height : Nat) (texture_name : String) :
    List (Nat × Nat) → Bool → CacheMap → Bool × CacheMap
  | [], _, cache => (false, cache)
  | (block_w, block_h) :: rest, output_exists, cache =>
    let r := decode_with_config (oracle (block_w, block_h)) raw pcvr_width pcvr_height
      block_w block_h (some texture_name) output_exists cache
    if r.1 then (true, r.2.2)
    else try_block_sizes oracle raw pcvr_width pcvr_height texture_name rest r.2.1 r.2.2

/-- `ASTCTools.decode_with_mapping`: resolve the mapping entry for the
texture's stem (`find_texture_info`), then try the common block sizes in
order; the texture's stem itself is passed as the cache key of every
attempt. -/
def decode_with_mapping (oracle : Nat × Nat → CodecResult) (raw : List Nat)
    (texture_name : String) (mapping : Mapping) (output_preexists : Bool)
    (cache : CacheMap) : Bool × CacheMap :=
  match find_texture_info texture_name mapping with
  | none => (false, cache)
  | some info =>
    try_block_sizes oracle raw info.width info.height texture_name
      get_common_block_sizes output_preexists cache

/-- One row of `ASTCTools.brute_force_decode`'s fixed configuration table. -/
structure BFConfig where
  width : Nat
  height : Nat
  block_w : Nat
  block_h : Nat
  desc : String
deriving Repr, DecidableEq

/-- The fixed ordered configuration table of `ASTCTools.brute_force_decode`. -/
def configurations : List BFConfig :=
  [⟨2048, 1024, 8, 8, "2Kx1K_8x8"⟩, ⟨2048, 1024, 6, 6, "2Kx1K_6x6"⟩,
   ⟨2048, 1024, 4, 4, "2Kx1K_4x4"⟩,
   ⟨1024, 512, 8, 8, "1Kx512_8x8"⟩, ⟨1024, 512, 6, 6, "1Kx512_6x6"⟩,
   ⟨1024, 512, 4, 4, "1Kx512_4x4"⟩,
   ⟨2048, 2048, 8, 8, "2K_square_8x8"⟩, ⟨1024, 1024, 8, 8, "1K_square_8x8"⟩]

/-- Specification-side predicate: the configuration's expected ASTC size is
within 100 bytes of the blob's actual byte length (the complement of the
`abs(expected_size - file_size) > 100` skip test). -/
def size_within_tolerance (file_size : Nat) (cfg : BFConfig) : Bool :=
  ((calculate_astc_size cfg.width cfg.height cfg.block_w cfg.block_h : Int)
    - (file_size : Int)).natAbs ≤ 100

/-- Specification-side helper: the prefix of a candidate list up to and
including its first accepted element (all of it when none is accepted). -/
def until_first_accept (p : BFConfig → Bool) : List BFConfig → List BFConfig
  | [] => []
  | c :: rest => if p c then [c] else c :: until_first_accept p rest

/-- Whether one brute-force candidate's decode validation succeeds (the
accept flag of `decode_with_config` for that configuration, which is
independent of the cache threaded through the loop). -/
def decode_validates (oracle : BFConfig → CodecResult) (raw : List Nat)
    (name : String) (cfg : BFConfig) : Bool :=
  (decode_with_config (oracle cfg) raw cfg.width cfg.height cfg.block_w cfg.block_h
    (some name) false empty_cache).1

/-- The `for width, height, block_w, block_h, desc in configurations` loop of
`ASTCTools.brute_force_decode`.  Besides the return flag and the cache, the
third component records, in order, the configurations whose decode validation
was actually attempted (the codec invocations); a configuration outside the
±100-byte tolerance is skipped without an invocation.  Each iteration uses a
per-configuration output file name, so no existence flag is threaded. -/
def brute_force_go (oracle : BFConfig → CodecResult) (raw : List Nat)
    (name : String) : List BFConfig → CacheMap → Bool × CacheMap × List BFConfig
  | [], cache => (false, cache, [])
  | cfg :: rest, cache =>
    if 100 < ((calculate_astc_size cfg.width cfg.height cfg.block_w cfg.block_h : Int)
        - (raw.length : Int)).natAbs then
      brute_force_go oracle raw name rest cache
    else
      let r := decode_with_config (oracle cfg) raw cfg.width cfg.height
        cfg.block_w cfg.block_h (some name) false cache
      if r.1 then (true, r.2.2, [cfg])
      else
        let rec2 := brute_force_go oracle raw name rest r.2.2
        (rec2.1, rec2.2.1, cfg :: rec2.2.2)

/-- `ASTCTools.brute_force_decode`: the loop over the fixed table, with the
texture's stem as every attempt's cache key and the blob's byte length as
`file_size`. -/
def brute_force_decode (oracle : BFConfig → CodecResult) (raw : List Nat)
    (name : String) (cache : CacheMap) : Bool × CacheMap × List BFConfig :=
  brute_force_go oracle raw name configurations cache

/-- The observable outcome of one external `astcenc -cl` (encode) invocation:
the exit code as `run_hidden_command` reports it, and the bytes the codec
left in the temporary `.astc` file. -/
structure EncodeRun where
  returncode : Int
  astc_data : List Nat
deriving Repr, DecidableEq

/-- `ASTCTools.encode_texture`: fail on a nonzero exit code; otherwise read
the temporary `.astc` file, strip the codec's 16-byte header when its magic
matches, and, when `target_size` is truthy (neither `None` nor 0) and the raw
payload's length differs from it, pad or truncate to exactly `target_size`.
`some bytes` is the content written to the output file.  (The source also
computes `expected_size` inside the truthy branch and never uses it.) -/
def encode_texture (run : EncodeRun) (width height block_w block_h : Nat)
    (quality : String) (target_size : Option Nat) : Option (List Nat) :=
  if run.returncode ≠ 0 then none
  else
    let raw_data := strip_astc_header run.astc_data
    let final_data :=
      match target_size with
      | some ts =>
        if ts ≠ 0 then
          let _expected := calculate_astc_size width height block_w block_h
          if raw_data.length ≠ ts then pad_to_size raw_data ts else raw_data
        else raw_data
      | none => raw_data
    some final_data

/-- `ASTCTools.encode_with_cache`: fail unless the texture has a cache entry;
otherwise re-encode with the cached width/height/block size and the cached
original byte size as target size. -/
def encode_with_cache (run : EncodeRun) (cache : CacheMap)
    (texture_name : String) (quality : String) : Option (List Nat) :=
  match cache texture_name with
  | none => none
  | some config =>
    encode_texture run config.width config.height config.block_w config.block_h
      quality (some config.original_size)

/-- `TextureReplacer.replace_quest_texture`, from the `astcenc` lookup to the
returned `(success, message)` pair.  The encode step follows the source: a
`DECODE_CACHE` hit goes through `encode_with_cache`; otherwise, with a
nonempty mapping holding the name directly, `encode_texture` runs with the
mapping's dimensions, the fixed default block size 8x8 and the original
file's size as target.  When no payload was produced the structured failure
is returned.  After a successful encode the source's next statement reads
the name `dest_textures_folder`, which is bound nowhere in the program (no
local, enclosing, global or builtin binding), so Python raises `NameError`
there; the surrounding `except Exception` turns that into the structured
failure returned here, and the copy/patch/success tail of the function is
unreachable. -/
def replace_quest_texture (run : EncodeRun) (cache : CacheMap) (mapping : Mapping)
    (texture_name_no_ext : String) (original_size : Nat) (astcenc_found : Bool) :
    Bool × String :=
  if astcenc_found = false then (false, "astcenc not found")
  else
    match (if (cache texture_name_no_ext).isSome then
        encode_with_cache run cache texture_name_no_ext "medium"
      else if mapping ≠ [] then
        match mapping_get mapping texture_name_no_ext with
        | some info =>
          encode_texture run info.width info.height 8 8 "medium" (some original_size)
        | none => none
      else none) with
    | none => (false, "Failed to encode/find texture info")
    | some _ =>
      (false, "Quest replacement error: name \x27dest_textures_folder\x27 is not defined")

/-- The filesystem state `TextureReplacer.replace_pcvr_texture` reads:
the original texture's bytes, the replacement file's bytes, whether its name
ends in `.dds` (case-insensitively) and it is a regular file, the outcome of
`convert_to_dds` through `texconv` (`some (bytes, size)` on success), and the
rebuild-output tree's corresponding descriptor file's bytes when it exists. -/
structure PcvrEnv where
  original : List Nat
  replacement : List Nat
  replacement_name_dds : Bool
  replacement_isfile : Bool
  convert_result : Option (List Nat × Nat)
  corresponding : Option (List Nat)

/-- What `replace_pcvr_texture` returns and leaves in the staging tree:
the `(success, message)` pair, the bytes copied into the staging textures
folder, and the bytes left in the staging descriptor folder after the
size patch. -/
structure PcvrResult where
  ok : Bool
  message : String
  staged_texture : Option (List Nat)
  staged_descriptor : Option (List Nat)
deriving Repr, DecidableEq

/-- The copy-and-patch tail of `replace_pcvr_texture` (lines 1538-1550): the
payload is copied into the staging textures folder, then, when the
rebuild-output descriptor exists, it is copied beside it and its size field
patched to `size` via `hex_edit_file_size`. -/
def pcvr_stage (corresponding : Option (List Nat)) (dds_bytes : List Nat)
    (size : Nat) : PcvrResult :=
  match corresponding with
  | none => ⟨false, "Corresponding file not found", some dds_bytes, none⟩
  | some corr =>
    let r := hex_edit_file_size corr size
    if r.1 then
      ⟨true, s!"PCVR texture replaced. Size updated to {size} bytes.",
        some dds_bytes, some r.2⟩
    else
      ⟨false, "Failed to update file size", some dds_bytes, some r.2⟩

/-- `TextureReplacer.replace_pcvr_texture`: read the original's header for
the target dimensions; decide whether to convert (`needs_convert` is Python
`not is_dds or (repl_info and (width or height mismatch))`, which is falsy
when the replacement is an existing `.dds` file whose header probe returned
`None`); then stage the payload and patch the descriptor.  In the no-convert
branch a `None` `replacement_size` argument is replaced by the replacement
file's own byte size. -/
def replace_pcvr_texture (env : PcvrEnv) (replacement_size : Option Nat) :
    PcvrResult :=
  match get_dds_info env.original with
  | none => ⟨false, "Could not read original texture dimensions", none, none⟩
  | some orig_info =>
    let is_dds := env.replacement_name_dds && env.replacement_isfile
    let repl_info := if is_dds then get_dds_info env.replacement else none
    let needs_convert : Bool := !is_dds ||
      (match repl_info with
       | some ri => decide (ri.width ≠ orig_info.width) || decide (ri.height ≠ orig_info.height)
       | none => false)
    if needs_convert || !is_dds then
      match env.convert_result with
      | none => ⟨false, "DDS conversion via texconv.exe failed. Check tool and file paths.",
          none, none⟩
      | some (dds_bytes, size) => pcvr_stage env.corresponding dds_bytes size
    else
      pcvr_stage env.corresponding env.replacement
        (replacement_size.getD env.replacement.length)

/-- A well-formed 128-byte desktop container: the `DDS ` signature followed
by 124 zero header bytes. -/
def sample_dds : List Nat := [68, 68, 83, 32] ++ List.replicate 124 0

/-- A concrete 248-byte descriptor blob. -/
def sample_descriptor : List Nat := List.replicate 248 9

/-- A mapping holding only the base identity "foo". -/
def mapping_foo : Mapping := [("foo", ⟨256, 256⟩)]

/-- A codec oracle whose every decode invocation succeeds with a 1500-byte
output. -/
def oracle_ok : Nat × Nat → CodecResult := fun _ => ⟨0, true, 1500⟩

/-- A concrete 2-byte raw blob. -/
def raw_foo : List Nat := [0, 1]

/-- A cache holding resolved parameters for "foo". -/
def cache_foo : CacheMap := cache_store empty_cache "foo" ⟨256, 256, 8, 8, 131072⟩

/-- A successful encode run leaving 20 bytes in the temporary file. -/
def enc_run_ok : EncodeRun := ⟨0, List.replicate 20 1⟩

/-- A concrete filesystem state for the headered replacement path: a parsable
original, an existing `.dds` replacement whose header probe fails, no
converter outcome, and a 248-byte descriptor. -/
def pcvr_env_sample : PcvrEnv :=
  ⟨sample_dds, [1, 2, 3], true, true, none, some sample_descriptor⟩

/-- Ceiling division on naturals agrees with the `(a + b - 1) / b` idiom. -/
theorem nat_ceil_cast_div (a b : Nat) (hb : 0 < b) :
    ⌈(a : ℚ) / (b : ℚ)⌉₊ = (a + b - 1) / b := by
  have hbq : (0 : ℚ) < (b : ℚ) := by exact_mod_cast hb
  rcases Nat.eq_zero_or_pos a with ha | ha
  · subst ha
    have hr : (b - 1) / b = 0 := Nat.div_eq_of_lt (by omega)
    simp [hr]
  · obtain ⟨n, hn⟩ : ∃ n, n = (a + b - 1) / b := ⟨_, rfl⟩
    obtain ⟨r, hr⟩ : ∃ r, r = (a + b - 1) % b := ⟨_, rfl⟩
    have hdm : b * n + r = a + b - 1 := by rw [hn, hr]; exact Nat.div_add_mod _ _
    have hmod : r < b := by rw [hr]; exact Nat.mod_lt _ hb
    rw [← hn]
    have hn1 : 1 ≤ n := by
      rcases Nat.eq_zero_or_pos n with h0 | h1
      · exfalso; rw [h0, Nat.mul_zero] at hdm; omega
      · exact h1
    have hge : b ≤ b * n := by
      have h2 := Nat.mul_le_mul_left b hn1
      simpa using h2
    rw [Nat.ceil_eq_iff (by omega)]
    constructor
    · rw [lt_div_iff₀ hbq]
      have hexp : (n - 1) * b = b * n - b := by
        rw [Nat.sub_mul, Nat.one_mul, Nat.mul_comm n b]
      have hlt : (n - 1) * b < a := by rw [hexp]; omega
      calc ((n - 1 : Nat) : ℚ) * (b : ℚ) = (((n - 1) * b : Nat) : ℚ) := by push_cast; ring
        _ < (a : ℚ) := by exact_mod_cast hlt
    · rw [div_le_iff₀ hbq]
      have hle : a ≤ n * b := by rw [Nat.mul_comm n b]; omega
      calc (a : ℚ) ≤ ((n * b : Nat) : ℚ) := by exact_mod_cast hle
        _ = (n : ℚ) * (b : ℚ) := by push_cast; ring

/-- C7: `calculate_astc_size` equals `ceil(w/bw) * ceil(h/bh) * 16` exactly for
positive arguments, gives 16 at (4,4,4,4) and 32 at (5,4,4,4), and is
monotonically non-decreasing in width and in height for a fixed block size. -/
theorem calculate_astc_size_spec :
    (∀ w h bw bh : Nat, 0 < w → 0 < h → 0 < bw → 0 < bh →
      calculate_astc_size w h bw bh
        = ⌈(w : ℚ) / (bw : ℚ)⌉₊ * ⌈(h : ℚ) / (bh : ℚ)⌉₊ * 16)
    ∧ calculate_astc_size 4 4 4 4 = 16
    ∧ calculate_astc_size 5 4 4 4 = 32
    ∧ (∀ w w2 h bw bh : Nat, w ≤ w2 →
        calculate_astc_size w h bw bh ≤ calculate_astc_size w2 h bw bh)
    ∧ (∀ w h h2 bw bh : Nat, h ≤ h2 →
        calculate_astc_size w h bw bh ≤ calculate_astc_size w h2 bw bh) := by
  refine ⟨?_, by decide, by decide, ?_, ?_⟩
  · intro w h bw bh _ _ hbw hbh
    rw [calculate_astc_size, nat_ceil_cast_div w bw hbw, nat_ceil_cast_div h bh hbh]
  · intro w w2 h bw bh hw
    have h1 : (w + bw - 1) / bw ≤ (w2 + bw - 1) / bw :=
      Nat.div_le_div_right (by omega)
    exact Nat.mul_le_mul_right 16 (Nat.mul_le_mul_right _ h1)
  · intro w h h2 bw bh hh
    have h1 : (h + bh - 1) / bh ≤ (h2 + bh - 1) / bh :=
      Nat.div_le_div_right (by omega)
    exact Nat.mul_le_mul_right 16 (Nat.mul_le_mul_left _ h1)

/-- C7 witness: the exact-formula conjunct evaluated at (4,4,4,4). -/
theorem calculate_astc_size_spec_witness :
    calculate_astc_size 4 4 4 4 = ⌈(4 : ℚ) / (4 : ℚ)⌉₊ * ⌈(4 : ℚ) / (4 : ℚ)⌉₊ * 16 :=
  calculate_astc_size_spec.1 4 4 4 4 (by decide) (by decide) (by decide) (by decide)

/-- C6: `pad_to_size` pads short data with a zero suffix to exactly `n` bytes,
truncates long data to its first `n` bytes, is the identity at equal length,
always returns exactly `n` bytes, and is idempotent. -/
theorem pad_to_size_spec :
    ∀ (data : List Nat) (n : Nat),
      (data.length < n →
        pad_to_size data n = data ++ List.replicate (n - data.length) 0)
      ∧ (data.length > n → pad_to_size data n = data.take n)
      ∧ (data.length = n → pad_to_size data n = data)
      ∧ (pad_to_size data n).length = n
      ∧ pad_to_size (pad_to_size data n) n = pad_to_size data n
      ∧ (data.length < n → (pad_to_size data n).take data.length = data) := by
  intro data n
  have hlen : (pad_to_size data n).length = n := by
    unfold pad_to_size
    split
    · simp; omega
    · split
      · simp; omega
      · omega
  have hid : ∀ d : List Nat, d.length = n → pad_to_size d n = d := by
    intro d hd
    unfold pad_to_size
    rw [if_neg (by omega), if_neg (by omega)]
  refine ⟨?_, ?_, hid data, hlen, hid _ hlen, ?_⟩
  · intro h; unfold pad_to_size; rw [if_pos h]
  · intro h; unfold pad_to_size; rw [if_neg (by omega), if_pos h]
  · intro h
    unfold pad_to_size
    rw [if_pos h, List.take_append_of_le_length (le_refl _), List.take_length]

/-- C6 witness: the padding conjunct evaluated at a concrete short input. -/
theorem pad_to_size_spec_witness :
    pad_to_size [5, 6] 4 = [5, 6] ++ List.replicate (4 - [5, 6].length) 0 :=
  (pad_to_size_spec [5, 6] 4).1 (by decide)

/-- A 4-byte slice's `unpackLE32` as a sum of its `getD` entries. -/
theorem unpackLE32_eq_getD (s : List Nat) (h : s.length = 4) :
    unpackLE32 s
      = s.getD 0 0 + 256 * s.getD 1 0 + 65536 * s.getD 2 0 + 16777216 * s.getD 3 0 := by
  rcases s with _ | ⟨b0, s⟩
  · simp at h
  rcases s with _ | ⟨b1, s⟩
  · simp at h
  rcases s with _ | ⟨b2, s⟩
  · simp at h
  rcases s with _ | ⟨b3, s⟩
  · simp at h
  rcases s with _ | ⟨b4, s⟩
  · rfl
  · simp at h

/-- An entry of a 4-byte slice read back in the original list. -/
theorem getD_slice (l : List Nat) (off i : Nat) (hi : i < 4) :
    ((l.drop off).take 4).getD i 0 = l.getD (off + i) 0 := by
  rw [List.getD_eq_getElem?_getD, List.getD_eq_getElem?_getD,
      List.getElem?_take_of_lt hi, List.getElem?_drop]

/-- `struct.unpack("<I", l[off:off+4])` equals the little-endian value at
offset `off` when the slice is complete. -/
theorem unpackLE32_slice (l : List Nat) (off : Nat) (h : off + 4 ≤ l.length) :
    unpackLE32 ((l.drop off).take 4) = le_value_at l off := by
  have h4 : ((l.drop off).take 4).length = 4 := by
    simp only [List.length_take, List.length_drop]
    omega
  rw [unpackLE32_eq_getD _ h4, le_value_at,
      getD_slice l off 0 (by omega), getD_slice l off 1 (by omega),
      getD_slice l off 2 (by omega), getD_slice l off 3 (by omega)]
  norm_num

/-- C3: `get_dds_info` returns none for every buffer under 128 bytes and for
every buffer not starting with the `DDS ` signature; for a buffer of at
least 128 bytes starting with the signature, the returned height, width and
mipmap count are the little-endian 32-bit values at offsets 8, 12 and 24 of
the 124-byte header that follows the signature. -/
theorem get_dds_info_spec :
    (∀ buf : List Nat, buf.length < 128 → get_dds_info buf = none)
    ∧ (∀ buf : List Nat, buf.take 4 ≠ [68, 68, 83, 32] → get_dds_info buf = none)
    ∧ (∀ buf : List Nat, 128 ≤ buf.length → buf.take 4 = [68, 68, 83, 32] →
        ∃ info, get_dds_info buf = some info
          ∧ info.height = le_value_at ((buf.drop 4).take 124) 8
          ∧ info.width = le_value_at ((buf.drop 4).take 124) 12
          ∧ info.mipmaps = le_value_at ((buf.drop 4).take 124) 24) := by
  refine ⟨?_, ?_, ?_⟩
  · intro buf h
    unfold get_dds_info
    by_cases hs : buf.take 4 = [68, 68, 83, 32]
    · rw [if_neg (not_not_intro hs), if_pos]
      simp only [List.length_take, List.length_drop]
      omega
    · rw [if_pos hs]
  · intro buf hs
    unfold get_dds_info
    rw [if_pos hs]
  · intro buf hlen hs
    have hhl : ((buf.drop 4).take 124).length = 124 := by
      simp only [List.length_take, List.length_drop]
      omega
    have hh : unpackLE32 ((((buf.drop 4).take 124).drop 8).take 4)
        = le_value_at ((buf.drop 4).take 124) 8 :=
      unpackLE32_slice _ 8 (by omega)
    have hw : unpackLE32 ((((buf.drop 4).take 124).drop 12).take 4)
        = le_value_at ((buf.drop 4).take 124) 12 :=
      unpackLE32_slice _ 12 (by omega)
    have hm : unpackLE32 ((((buf.drop 4).take 124).drop 24).take 4)
        = le_value_at ((buf.drop 4).take 124) 24 :=
      unpackLE32_slice _ 24 (by omega)
    unfold get_dds_info
    rw [if_neg (not_not_intro hs), if_neg (by omega)]
    dsimp only
    split_ifs <;> exact ⟨_, rfl, hh, hw, hm⟩

/-- C3 witness: the valid-buffer conjunct evaluated at a concrete 128-byte
container. -/
theorem get_dds_info_spec_witness :
    ∃ info, get_dds_info sample_dds = some info
      ∧ info.height = le_value_at ((sample_dds.drop 4).take 124) 8
      ∧ info.width = le_value_at ((sample_dds.drop 4).take 124) 12
      ∧ info.mipmaps = le_value_at ((sample_dds.drop 4).take 124) 24 :=
  get_dds_info_spec.2.2 sample_dds (by decide) (by decide)

/-- C4: `hex_edit_file_size` refuses a blob under 248 bytes and leaves it
byte-for-byte unmodified; on a blob of at least 248 bytes (with a size that
fits 4 bytes) it succeeds, writes the little-endian size at bytes 244..247,
and leaves every other byte and the total length unchanged. -/
theorem hex_edit_file_size_spec :
    (∀ (data : List Nat) (new_size : Nat), data.length < 248 →
        hex_edit_file_size data new_size = (false, data))
    ∧ (∀ (data : List Nat) (new_size : Nat), 248 ≤ data.length →
        new_size < 4294967296 →
        (hex_edit_file_size data new_size).1 = true
        ∧ ((hex_edit_file_size data new_size).2.drop 244).take 4 = packLE32 new_size
        ∧ (hex_edit_file_size data new_size).2.take 244 = data.take 244
        ∧ (hex_edit_file_size data new_size).2.drop 248 = data.drop 248
        ∧ (hex_edit_file_size data new_size).2.length = data.length) := by
  constructor
  · intro data ns h
    unfold hex_edit_file_size
    rw [if_neg (by omega)]
  · intro data ns h hns
    have htl : (data.take 244).length = 244 := by
      simp only [List.length_take]
      omega
    have hpl : (packLE32 ns).length = 4 := rfl
    have hres : hex_edit_file_size data ns
        = (true, data.take 244 ++ packLE32 ns ++ data.drop 248) := by
      unfold hex_edit_file_size
      rw [if_pos h, if_pos hns]
    rw [hres]
    refine ⟨rfl, ?_, ?_, ?_, ?_⟩
    · show ((data.take 244 ++ packLE32 ns ++ data.drop 248).drop 244).take 4
        = packLE32 ns
      rw [List.append_assoc, List.drop_left' htl, List.take_left' hpl]
    · show (data.take 244 ++ packLE32 ns ++ data.drop 248).take 244 = data.take 244
      rw [List.append_assoc, List.take_left' htl]
    · show (data.take 244 ++ packLE32 ns ++ data.drop 248).drop 248 = data.drop 248
      rw [List.drop_left' (by rw [List.length_append, htl, hpl])]
    · show (data.take 244 ++ packLE32 ns ++ data.drop 248).length = data.length
      simp only [List.length_append, htl, hpl, List.length_drop]
      omega

/-- C4 witness: the success conjunct evaluated at a concrete 248-byte blob. -/
theorem hex_edit_file_size_spec_witness :
    (hex_edit_file_size sample_descriptor 77).1 = true
    ∧ ((hex_edit_file_size sample_descriptor 77).2.drop 244).take 4 = packLE32 77
    ∧ (hex_edit_file_size sample_descriptor 77).2.take 244 = sample_descriptor.take 244
    ∧ (hex_edit_file_size sample_descriptor 77).2.drop 248 = sample_descriptor.drop 248
    ∧ (hex_edit_file_size sample_descriptor 77).2.length = sample_descriptor.length :=
  hex_edit_file_size_spec.2 sample_descriptor 77 (by decide) (by decide)

/-- C5: wrapping a non-empty raw payload with the synthetic 16-byte header
(for dimensions in [1,65535] and block sizes in [1,255]) and then stripping
that header as the encode path does gives back exactly the raw payload. -/
theorem wrap_unwrap_roundtrip :
    ∀ (raw : List Nat) (w h bw bh : Nat),
      raw ≠ [] → 1 ≤ w → w ≤ 65535 → 1 ≤ h → h ≤ 65535 →
      1 ≤ bw → bw ≤ 255 → 1 ≤ bh → bh ≤ 255 →
      ∃ wrapped, wrap_raw_astc raw w h bw bh = some wrapped
        ∧ strip_astc_header wrapped = raw := by
  intro raw w h bw bh hraw hw1 hw2 hh1 hh2 hbw1 hbw2 hbh1 hbh2
  have hcond : bw ≤ 255 ∧ bh ≤ 255 ∧ w < 4294967296 ∧ h < 4294967296 := by omega
  have hraw0 : 0 < raw.length := List.length_pos.mpr hraw
  have hgroup : packLE32 0x5CA1AB13 ++ [bw, bh, 1] ++ dim3 w ++ dim3 h ++ dim3 1 ++ raw
      = (packLE32 0x5CA1AB13 ++ ([bw, bh, 1] ++ (dim3 w ++ (dim3 h ++ dim3 1)))) ++ raw := by
    simp [List.append_assoc]
  have hHlen : (packLE32 0x5CA1AB13 ++ ([bw, bh, 1] ++ (dim3 w ++ (dim3 h ++ dim3 1)))).length
      = 16 := by
    simp [packLE32, dim3]
  have hlen : ((packLE32 0x5CA1AB13 ++ ([bw, bh, 1] ++ (dim3 w ++ (dim3 h ++ dim3 1)))) ++ raw).length
      = 16 + raw.length := by
    rw [List.length_append, hHlen]
  have htake : ((packLE32 0x5CA1AB13 ++ ([bw, bh, 1] ++ (dim3 w ++ (dim3 h ++ dim3 1)))) ++ raw).take 4
      = [19, 171, 161, 92] := by
    rw [List.take_append_of_le_length (by rw [hHlen]; omega),
        List.take_append_of_le_length (by decide)]
    decide
  refine ⟨_, by unfold wrap_raw_astc; rw [if_pos hcond], ?_⟩
  rw [hgroup]
  unfold strip_astc_header
  rw [if_pos ⟨by rw [hlen]; omega, htake⟩]
  exact List.drop_left' hHlen

/-- C5 witness: the round trip evaluated at a concrete 1-byte payload. -/
theorem wrap_unwrap_roundtrip_witness :
    ∃ wrapped, wrap_raw_astc [7] 4 4 4 4 = some wrapped
      ∧ strip_astc_header wrapped = [7] :=
  wrap_unwrap_roundtrip [7] 4 4 4 4 (by decide) (by decide) (by decide) (by decide)
    (by decide) (by decide) (by decide) (by decide) (by decide)

/-- C8: given that wrapping succeeds (so the codec is actually invoked), the
candidate is accepted iff the invocation exits 0, the output file exists and
its size strictly exceeds 1000 bytes; whenever the candidate is rejected the
output file is no longer present (deleted if it was), and the
`decode_with_mapping` block-size loop continues with the next candidate
instead of aborting. -/
theorem decode_with_config_accept_spec :
    ∀ (run : CodecResult) (raw : List Nat) (w h bw bh : Nat)
      (key : Option String) (pre : Bool) (cache : CacheMap),
      (wrap_raw_astc raw w h bw bh).isSome = true →
      ((decode_with_config run raw w h bw bh key pre cache).1 = true
        ↔ run.returncode = 0 ∧ run.outputExists = true ∧ 1000 < run.outputSize)
      ∧ ((decode_with_config run raw w h bw bh key pre cache).1 = false →
          (decode_with_config run raw w h bw bh key pre cache).2.1 = false)
      ∧ (∀ (oracle : Nat × Nat → CodecResult) (name : String)
            (rest : List (Nat × Nat)),
          oracle (bw, bh) = run →
          (decode_with_config run raw w h bw bh (some name) pre cache).1 = false →
          try_block_sizes oracle raw w h name ((bw, bh) :: rest) pre cache
            = try_block_sizes oracle raw w h name rest
                (decode_with_config run raw w h bw bh (some name) pre cache).2.1
                (decode_with_config run raw w h bw bh (some name) pre cache).2.2) := by
  intro run raw w h bw bh key pre cache hsome
  obtain ⟨wv, hwv⟩ := Option.isSome_iff_exists.mp hsome
  have hred : ∀ (k : Option String) (c : CacheMap),
      decode_with_config run raw w h bw bh k pre c
        = if run.returncode = 0 ∧ run.outputExists = true then
            if 1000 < run.outputSize then
              match k with
              | some key2 =>
                if key2.length ≠ 0 then
                  (true, true, cache_store c key2 ⟨w, h, bw, bh, raw.length⟩)
                else (true, true, c)
              | none => (true, true, c)
            else (false, false, c)
          else (false, false, c) := by
    intro k c
    unfold decode_with_config
    rw [hwv]
  refine ⟨?_, ?_, ?_⟩
  · rw [hred]
    by_cases h1 : run.returncode = 0 ∧ run.outputExists = true
    · rw [if_pos h1]
      by_cases h2 : 1000 < run.outputSize
      · rw [if_pos h2]
        cases key with
        | none => simp [h1.1, h1.2, h2]
        | some k2 =>
          by_cases h3 : k2.length = 0 <;> simp [h1.1, h1.2, h2, h3]
      · rw [if_neg h2]
        constructor
        · intro hx; simp at hx
        · rintro ⟨-, -, hc⟩; exact absurd hc h2
    · rw [if_neg h1]
      constructor
      · intro hx; simp at hx
      · rintro ⟨ha, hb, -⟩; exact absurd ⟨ha, hb⟩ h1
  · rw [hred]
    by_cases h1 : run.returncode = 0 ∧ run.outputExists = true
    · rw [if_pos h1]
      by_cases h2 : 1000 < run.outputSize
      · rw [if_pos h2]
        cases key with
        | none => intro hf; simp at hf
        | some k2 =>
          intro hf
          by_cases h3 : k2.length = 0 <;> simp [h3] at hf
      · rw [if_neg h2]; intro _; rfl
    · rw [if_neg h1]; intro _; rfl
  · intro oracle name rest horacle hrej
    simp only [try_block_sizes]
    rw [horacle, if_neg (by simp [hrej])]

/-- C8 witness: the acceptance conjunction instantiated at a successful
concrete invocation outcome with a wrappable blob. -/
theorem decode_with_config_accept_spec_witness :
    ((decode_with_config ⟨0, true, 1500⟩ [0] 4 4 4 4 none false empty_cache).1 = true
      ↔ (⟨0, true, 1500⟩ : CodecResult).returncode = 0
        ∧ (⟨0, true, 1500⟩ : CodecResult).outputExists = true
        ∧ 1000 < (⟨0, true, 1500⟩ : CodecResult).outputSize)
    ∧ ((decode_with_config ⟨0, true, 1500⟩ [0] 4 4 4 4 none false empty_cache).1 = false →
        (decode_with_config ⟨0, true, 1500⟩ [0] 4 4 4 4 none false empty_cache).2.1 = false)
    ∧ (∀ (oracle : Nat × Nat → CodecResult) (name : String)
          (rest : List (Nat × Nat)),
        oracle (4, 4) = ⟨0, true, 1500⟩ →
        (decode_with_config ⟨0, true, 1500⟩ [0] 4 4 4 4 (some name) false empty_cache).1 = false →
        try_block_sizes oracle [0] 4 4 name ((4, 4) :: rest) false empty_cache
          = try_block_sizes oracle [0] 4 4 name rest
              (decode_with_config ⟨0, true, 1500⟩ [0] 4 4 4 4 (some name) false empty_cache).2.1
              (decode_with_config ⟨0, true, 1500⟩ [0] 4 4 4 4 (some name) false empty_cache).2.2) :=
  decode_with_config_accept_spec ⟨0, true, 1500⟩ [0] 4 4 4 4 none false empty_cache (by decide)

/-- A nonempty string has nonzero length. -/
theorem string_length_ne_zero (s : String) (h : s ≠ "") : s.length ≠ 0 := by
  intro h0
  apply h
  cases s with
  | mk data =>
    cases data with
    | nil => rfl
    | cons c cs => simp [String.length] at h0

/-- An accepted `decode_with_config` call with a nonempty cache key stores
the resolved record under exactly that key. -/
theorem decode_with_config_accept_cache (run : CodecResult) (raw : List Nat)
    (w h bw bh : Nat) (name : String) (pre : Bool) (cache : CacheMap)
    (hname : name ≠ "")
    (hacc : (decode_with_config run raw w h bw bh (some name) pre cache).1 = true) :
    (decode_with_config run raw w h bw bh (some name) pre cache).2.2
      = cache_store cache name ⟨w, h, bw, bh, raw.length⟩ := by
  have hlen : name.length ≠ 0 := string_length_ne_zero name hname
  unfold decode_with_config at hacc ⊢
  cases hw : wrap_raw_astc raw w h bw bh with
  | none => rw [hw] at hacc; simp at hacc
  | some wv =>
    rw [hw] at hacc
    dsimp only at hacc ⊢
    by_cases h1 : run.returncode = 0 ∧ run.outputExists = true
    · rw [if_pos h1] at hacc ⊢
      by_cases h2 : 1000 < run.outputSize
      · rw [if_pos h2] at hacc ⊢
        rw [if_pos hlen]
      · rw [if_neg h2] at hacc; simp at hacc
    · rw [if_neg h1] at hacc; simp at hacc

/-- A successful run of the mapping-path block-size loop leaves, under the
full texture name, the record of some attempted block size with the loop's
width/height and the raw blob's byte length. -/
theorem try_block_sizes_success_store :
    ∀ (bss : List (Nat × Nat)) (oracle : Nat × Nat → CodecResult)
      (raw : List Nat) (w h : Nat) (name : String) (ex : Bool) (cache : CacheMap),
      name ≠ "" →
      (try_block_sizes oracle raw w h name bss ex cache).1 = true →
      ∃ bw bh, (bw, bh) ∈ bss ∧
        (try_block_sizes oracle raw w h name bss ex cache).2 name
          = some ⟨w, h, bw, bh, raw.length⟩ := by
  intro bss oracle raw w h name
  induction bss with
  | nil =>
    intro ex cache hname hs
    simp [try_block_sizes] at hs
  | cons bb rest ih =>
    obtain ⟨bw, bh⟩ := bb
    intro ex cache hname hs
    by_cases hacc :
        (decode_with_config (oracle (bw, bh)) raw w h bw bh (some name) ex cache).1 = true
    · have hres : try_block_sizes oracle raw w h name ((bw, bh) :: rest) ex cache
          = (true, (decode_with_config (oracle (bw, bh)) raw w h bw bh
              (some name) ex cache).2.2) := by
        simp only [try_block_sizes]
        rw [if_pos hacc]
      rw [hres]
      refine ⟨bw, bh, List.mem_cons_self _ _, ?_⟩
      rw [decode_with_config_accept_cache (oracle (bw, bh)) raw w h bw bh name ex cache
        hname hacc]
      simp [cache_store]
    · have hres : try_block_sizes oracle raw w h name ((bw, bh) :: rest) ex cache
          = try_block_sizes oracle raw w h name rest
              (decode_with_config (oracle (bw, bh)) raw w h bw bh (some name) ex cache).2.1
              (decode_with_config (oracle (bw, bh)) raw w h bw bh (some name) ex cache).2.2 := by
        simp only [try_block_sizes]
        rw [if_neg hacc]
      rw [hres] at hs ⊢
      obtain ⟨bw2, bh2, hmem, hstore⟩ := ih _ _ hname hs
      exact ⟨bw2, bh2, List.mem_cons_of_mem _ hmem, hstore⟩

/-- C2 (amended): when a texture resolves through suffix stripping (no direct
mapping entry) and the mapping-path resolution succeeds, the resolved record
{mapping width, mapping height, accepted block size, raw byte length} is
stored in the cache keyed by the texture's FULL name — not by the
suffix-stripped base identity. -/
theorem decode_with_mapping_stores_full_name :
    ∀ (oracle : Nat × Nat → CodecResult) (raw : List Nat) (texture_name : String)
      (mapping : Mapping) (pre : Bool) (cache : CacheMap) (info : TextureInfo),
      texture_name ≠ "" →
      mapping_get mapping texture_name = none →
      find_texture_info texture_name mapping = some info →
      (decode_with_mapping oracle raw texture_name mapping pre cache).1 = true →
      ∃ bw bh, (bw, bh) ∈ get_common_block_sizes ∧
        (decode_with_mapping oracle raw texture_name mapping pre cache).2 texture_name
          = some ⟨info.width, info.height, bw, bh, raw.length⟩ := by
  intro oracle raw name mapping pre cache info hname hdirect hfind hsucc
  have hred : decode_with_mapping oracle raw name mapping pre cache
      = try_block_sizes oracle raw info.width info.height name
          get_common_block_sizes pre cache := by
    unfold decode_with_mapping
    rw [hfind]
  rw [hred] at hsucc ⊢
  exact try_block_sizes_success_store get_common_block_sizes oracle raw
    info.width info.height name pre cache hname hsucc

/-- C2 counterexample: for texture "foo_d" (no direct entry, resolving via
the "_d" suffix to base "foo") with an all-accepting codec, resolution
succeeds but the cache holds nothing under the base identity "foo"; the
record sits under the full name "foo_d". -/
theorem decode_with_mapping_base_key_counterexample :
    (decode_with_mapping oracle_ok raw_foo "foo_d" mapping_foo false empty_cache).1 = true
    ∧ (decode_with_mapping oracle_ok raw_foo "foo_d" mapping_foo false empty_cache).2 "foo"
        = none
    ∧ (decode_with_mapping oracle_ok raw_foo "foo_d" mapping_foo false empty_cache).2 "foo_d"
        = some ⟨256, 256, 4, 4, 2⟩ := by
  refine ⟨?_, ?_, ?_⟩ <;> decide

/-- C2 witness: the amended statement instantiated at the "foo_d" scenario. -/
theorem decode_with_mapping_stores_full_name_witness :
    ∃ bw bh, (bw, bh) ∈ get_common_block_sizes ∧
      (decode_with_mapping oracle_ok raw_foo "foo_d" mapping_foo false empty_cache).2 "foo_d"
        = some ⟨(⟨256, 256⟩ : TextureInfo).width, (⟨256, 256⟩ : TextureInfo).height,
            bw, bh, raw_foo.length⟩ :=
  decode_with_mapping_stores_full_name oracle_ok raw_foo "foo_d" mapping_foo false
    empty_cache ⟨256, 256⟩ (by decide) (by decide) (by decide) (by decide)

/-- The accept flag of `decode_with_config` does not depend on the cache
threaded through it. -/
theorem decode_with_config_fst_ext :
    ∀ (run : CodecResult) (raw : List Nat) (w h bw bh : Nat) (key : Option String)
      (pre : Bool) (c1 c2 : CacheMap),
      (decode_with_config run raw w h bw bh key pre c1).1
        = (decode_with_config run raw w h bw bh key pre c2).1 := by
  intro run raw w h bw bh key pre c1 c2
  unfold decode_with_config
  cases wrap_raw_astc raw w h bw bh with
  | none => rfl
  | some wv =>
    dsimp only
    by_cases h1 : run.returncode = 0 ∧ run.outputExists = true
    · rw [if_pos h1, if_pos h1]
      by_cases h2 : 1000 < run.outputSize
      · rw [if_pos h2, if_pos h2]
        cases key with
        | none => rfl
        | some k2 => by_cases h3 : k2.length = 0 <;> simp [h3]
      · rw [if_neg h2, if_neg h2]
    · rw [if_neg h1, if_neg h1]

/-- The brute-force loop invariant: the recorded invocation trace is exactly
the within-tolerance candidates up to and including the first validated one,
and the loop succeeds iff some within-tolerance candidate validates. -/
theorem brute_force_go_spec :
    ∀ (cfgs : List BFConfig) (oracle : BFConfig → CodecResult) (raw : List Nat)
      (name : String) (cache : CacheMap),
      (brute_force_go oracle raw name cfgs cache).2.2
        = until_first_accept (decode_validates oracle raw name)
            (cfgs.filter (size_within_tolerance raw.length))
      ∧ ((brute_force_go oracle raw name cfgs cache).1 = true
        ↔ (cfgs.filter (size_within_tolerance raw.length)).any
            (decode_validates oracle raw name)) := by
  intro cfgs oracle raw name
  induction cfgs with
  | nil =>
    intro cache
    simp [brute_force_go, until_first_accept]
  | cons cfg rest ih =>
    intro cache
    by_cases htol : 100 < ((calculate_astc_size cfg.width cfg.height cfg.block_w
        cfg.block_h : Int) - (raw.length : Int)).natAbs
    · have hfilt : size_within_tolerance raw.length cfg = false := by
        simp only [size_within_tolerance, decide_eq_false_iff_not]
        omega
      have hgo : brute_force_go oracle raw name (cfg :: rest) cache
          = brute_force_go oracle raw name rest cache := by
        simp only [brute_force_go]
        rw [if_pos htol]
      rw [hgo]
      simp only [List.filter_cons, hfilt]
      exact ih cache
    · have hfilt : size_within_tolerance raw.length cfg = true := by
        simp only [size_within_tolerance, decide_eq_true_eq]
        omega
      by_cases hacc : (decode_with_config (oracle cfg) raw cfg.width cfg.height
          cfg.block_w cfg.block_h (some name) false cache).1 = true
      · have hval : decode_validates oracle raw name cfg = true := by
          unfold decode_validates
          rw [decode_with_config_fst_ext (oracle cfg) raw cfg.width cfg.height
            cfg.block_w cfg.block_h (some name) false empty_cache cache]
          exact hacc
        have hgo : brute_force_go oracle raw name (cfg :: rest) cache
            = (true, (decode_with_config (oracle cfg) raw cfg.width cfg.height
                cfg.block_w cfg.block_h (some name) false cache).2.2, [cfg]) := by
          simp only [brute_force_go]
          rw [if_neg htol, if_pos hacc]
        rw [hgo]
        simp only [List.filter_cons, hfilt]
        constructor
        · simp [until_first_accept, hval]
        · simp [List.any_cons, hval]
      · have hflag : (decode_with_config (oracle cfg) raw cfg.width cfg.height
            cfg.block_w cfg.block_h (some name) false cache).1 = false := by
          cases hb : (decode_with_config (oracle cfg) raw cfg.width cfg.height
              cfg.block_w cfg.block_h (some name) false cache).1
          · rfl
          · exact absurd hb hacc
        have hval : decode_validates oracle raw name cfg = false := by
          unfold decode_validates
          rw [decode_with_config_fst_ext (oracle cfg) raw cfg.width cfg.height
            cfg.block_w cfg.block_h (some name) false empty_cache cache]
          exact hflag
        have hgo : brute_force_go oracle raw name (cfg :: rest) cache
            = ((brute_force_go oracle raw name rest
                  (decode_with_config (oracle cfg) raw cfg.width cfg.height
                    cfg.block_w cfg.block_h (some name) false cache).2.2).1,
               (brute_force_go oracle raw name rest
                  (decode_with_config (oracle cfg) raw cfg.width cfg.height
                    cfg.block_w cfg.block_h (some name) false cache).2.2).2.1,
               cfg :: (brute_force_go oracle raw name rest
                  (decode_with_config (oracle cfg) raw cfg.width cfg.height
                    cfg.block_w cfg.block_h (some name) false cache).2.2).2.2) := by
          simp only [brute_force_go]
          rw [if_neg htol, if_neg hacc]
        rw [hgo]
        obtain ⟨ih1, ih2⟩ := ih ((decode_with_config (oracle cfg) raw cfg.width
          cfg.height cfg.block_w cfg.block_h (some name) false cache).2.2)
        simp only [List.filter_cons, hfilt]
        constructor
        · simp [until_first_accept, hval, ih1]
        · simp [List.any_cons, hval, ih2]

/-- C9: the brute-force resolver walks its fixed configuration table in
listed order, invokes the codec exactly for the configurations whose
expected size is within 100 bytes of the blob's length — up to and including
the first one that validates — and succeeds iff some within-tolerance
configuration validates (the first such success wins). -/
theorem brute_force_decode_spec :
    ∀ (oracle : BFConfig → CodecResult) (raw : List Nat) (name : String)
      (cache : CacheMap),
      (brute_force_decode oracle raw name cache).2.2
        = until_first_accept (decode_validates oracle raw name)
            (configurations.filter (size_within_tolerance raw.length))
      ∧ ((brute_force_decode oracle raw name cache).1 = true
        ↔ (configurations.filter (size_within_tolerance raw.length)).any
            (decode_validates oracle raw name)) := by
  intro oracle raw name cache
  exact brute_force_go_spec configurations oracle raw name cache

/-- C1: in `replace_quest_texture`, once parameter resolution succeeds (a
cache hit, or a nonempty mapping holding the name directly) and the codec
encode exits 0, the function still returns the structured failure produced
by the `NameError` on the unbound name `dest_textures_folder` — it never
copies the payload, never patches the descriptor, and never returns
success. -/
theorem replace_quest_texture_fails_after_encode :
    ∀ (run : EncodeRun) (cache : CacheMap) (mapping : Mapping)
      (texture_name_no_ext : String) (original_size : Nat),
      run.returncode = 0 →
      ((cache texture_name_no_ext).isSome = true
        ∨ (cache texture_name_no_ext = none ∧ mapping ≠ []
            ∧ (mapping_get mapping texture_name_no_ext).isSome = true)) →
      replace_quest_texture run cache mapping texture_name_no_ext original_size true
        = (false,
          "Quest replacement error: name \x27dest_textures_folder\x27 is not defined") := by
  intro run cache mapping name osize hrc hres
  have henc : ∀ (w h bw bh : Nat) (q : String) (ts : Option Nat),
      (encode_texture run w h bw bh q ts).isSome = true := by
    intro w h bw bh q ts
    unfold encode_texture
    rw [if_neg (by simp [hrc])]
    rfl
  have hsome : (if (cache name).isSome then
      encode_with_cache run cache name "medium"
    else if mapping ≠ [] then
      match mapping_get mapping name with
      | some info =>
        encode_texture run info.width info.height 8 8 "medium" (some osize)
      | none => none
    else none).isSome = true := by
    rcases hres with hcache | ⟨hnone, hmap, hdir⟩
    · rw [if_pos hcache]
      unfold encode_with_cache
      obtain ⟨rec0, hrec⟩ := Option.isSome_iff_exists.mp hcache
      rw [hrec]
      exact henc _ _ _ _ _ _
    · rw [if_neg (by simp [hnone]), if_pos hmap]
      obtain ⟨info, hinfo⟩ := Option.isSome_iff_exists.mp hdir
      rw [hinfo]
      exact henc _ _ _ _ _ _
  obtain ⟨payload, hpay⟩ := Option.isSome_iff_exists.mp hsome
  unfold replace_quest_texture
  rw [if_neg (by simp), hpay]

/-- C1 witness: the failure evaluated at a concrete cache-hit state with a
successful encode. -/
theorem replace_quest_texture_fails_after_encode_witness :
    replace_quest_texture enc_run_ok cache_foo [] "foo" 2048 true
      = (false,
        "Quest replacement error: name \x27dest_textures_folder\x27 is not defined") :=
  replace_quest_texture_fails_after_encode enc_run_ok cache_foo [] "foo" 2048
    (by decide) (Or.inl (by decide))

/-- C10: when the replacement file's name ends in `.dds`, the file exists,
but its header probe returns none, `replace_pcvr_texture` stages the
replacement's bytes unmodified (no conversion — the converter outcome is
never consulted) and patches the staged descriptor's size field at bytes
244..247 to the replacement file's own byte length. -/
theorem replace_pcvr_unparsed_dds_spec :
    ∀ (env : PcvrEnv) (oi : DDSInfo) (corr : List Nat),
      get_dds_info env.original = some oi →
      env.replacement_name_dds = true →
      env.replacement_isfile = true →
      get_dds_info env.replacement = none →
      env.corresponding = some corr →
      248 ≤ corr.length →
      env.replacement.length < 4294967296 →
      (replace_pcvr_texture env none).staged_texture = some env.replacement
      ∧ (replace_pcvr_texture env none).ok = true
      ∧ (replace_pcvr_texture env none).staged_descriptor
          = some (corr.take 244 ++ packLE32 env.replacement.length
              ++ corr.drop 248) := by
  intro env oi corr hoi hdds hfile hrepl hcorr hlen hsize
  have hred : replace_pcvr_texture env none
      = pcvr_stage env.corresponding env.replacement env.replacement.length := by
    unfold replace_pcvr_texture
    rw [hoi]
    simp [hdds, hfile, hrepl]
  have hhex : hex_edit_file_size corr env.replacement.length
      = (true, corr.take 244 ++ packLE32 env.replacement.length ++ corr.drop 248) := by
    unfold hex_edit_file_size
    rw [if_pos hlen, if_pos hsize]
  rw [hred, hcorr]
  unfold pcvr_stage
  dsimp only
  rw [hhex]
  simp

/-- C10 witness: the headerless-`.dds` path evaluated at a concrete state. -/
theorem replace_pcvr_unparsed_dds_spec_witness :
    (replace_pcvr_texture pcvr_env_sample none).staged_texture
        = some pcvr_env_sample.replacement
    ∧ (replace_pcvr_texture pcvr_env_sample none).ok = true
    ∧ (replace_pcvr_texture pcvr_env_sample none).staged_descriptor
        = some (sample_descriptor.take 244
            ++ packLE32 pcvr_env_sample.replacement.length
            ++ sample_descriptor.drop 248) :=
  replace_pcvr_unparsed_dds_spec pcvr_env_sample ⟨0, 0, 0, "Unknown", 128, none, false⟩
    sample_descriptor (by decide) rfl rfl (by decide) rfl (by decide) (by decide)
